import Mathlib

/-!
Verification of the edge-detection core (`libs/EdgeDetection.py`).

The Python module works on 2-D numpy arrays of floats.  The shallow embedding
represents an array as a `List (List _)` of exact numbers: the generic parts
(convolution, double thresholding, hysteresis) are stated over an arbitrary
linear ordered field; the parts that use `sqrt`, `arctan2` and degree
conversion are instantiated at `ℝ`.  Out-of-range reads that numpy would
raise `IndexError` for are modelled with `Option`-valued access (`Grid.get?`),
mirroring the `try/except IndexError: pass` blocks of the source.
-/

namespace EdgeDetection

/-- A 2-D raster grid, row-major, mirroring a 2-D `np.ndarray`. -/
abbrev Grid (α : Type) : Type := List (List α)

/-- Total array read `g[i, j]`, returning `0` out of bounds.  Inside the
source's loops every read is in bounds (see the access-safety theorem), so on
that domain this agrees with numpy indexing. -/
def Grid.get {α : Type} [Zero α] (g : Grid α) (i j : ℕ) : α :=
  (g.getD i []).getD j 0

/-- Checked array read: `none` models an `IndexError` being raised. -/
def Grid.get? {α : Type} (g : Grid α) (i j : ℕ) : Option α :=
  g[i]?.bind fun r => r[j]?

/-- Array write `g[i, j] = v` (no-op out of bounds, which never happens in
the loops below). -/
def setPix {α : Type} (g : Grid α) (i j : ℕ) (v : α) : Grid α :=
  g.set i ((g.getD i []).set j v)

/-- `g` is a well-formed `M × N` rectangular array (numpy arrays always are). -/
def WF {α : Type} (g : Grid α) (M N : ℕ) : Prop :=
  g.length = M ∧ ∀ r ∈ g, r.length = N

instance WF.decidable {α : Type} (g : Grid α) (M N : ℕ) : Decidable (WF g M N) :=
  inferInstanceAs (Decidable (g.length = M ∧ ∀ r ∈ g, r.length = N))

/-- Build an `m × n` grid from an index function; used to render numpy
expressions that fill a fresh array. -/
def mkGrid {α : Type} (m n : ℕ) (f : ℕ → ℕ → α) : Grid α :=
  (List.range m).map fun i => (List.range n).map fun j => f i j

/-- `Image.max()`: maximum entry of a (nonempty) array.  numpy raises on an
empty array; the `0` default for `[]` is never exercised by the theorems. -/
def gridMax {α : Type} [LinearOrder α] [Zero α] (g : Grid α) : α :=
  match g.flatten with
  | [] => 0
  | x :: xs => xs.foldl max x

/-- Elementwise combination of two same-shape arrays (numpy broadcasting on
equal shapes). -/
def zipWith2 {α β γ : Type} (f : α → β → γ) (a : Grid α) (b : Grid β) : Grid γ :=
  List.zipWith (List.zipWith f) a b

/-- `scipy.signal.convolve2d(in1, in2)` in its default "full" mode:
the output has dimensions `(M + Kh - 1) × (N + Kw - 1)` and the kernel
overhangs every border with zero-padded contributions.
`out[i, j] = Σ_{k,l} in2[k, l] * in1[i - k, j - l]`, terms outside `in1`
contributing `0`. -/
def convolve2d {α : Type} [LinearOrderedField α] (in1 in2 : Grid α) : Grid α :=
  let M := in1.length
  let N := (in1.getD 0 []).length
  let Kh := in2.length
  let Kw := (in2.getD 0 []).length
  mkGrid (M + Kh - 1) (N + Kw - 1) fun i j =>
    (((List.range Kh).map fun k =>
      (((List.range Kw).map fun l =>
        Grid.get in2 k l *
          (if k ≤ i ∧ l ≤ j then Grid.get in1 (i - k) (j - l) else 0)).sum)).sum)

/-- `apply_kernel(image, horizontal_kernel, vertical_kernel, ReturnEdge)`.
The grayscale branch (`cv2.cvtColor`) is an external conversion; the embedding
takes the single-channel grid directly.  The boolean `ReturnEdge` toggling the
shape of the Python result is rendered by always returning the triple
`(mag, horizontal_edge, vertical_edge)`; callers that ignore the edges use
`.1`.  `mag = np.sqrt(horizontal_edge ** 2 + vertical_edge ** 2)`. -/
noncomputable def apply_kernel (image horizontal_kernel vertical_kernel : Grid ℝ) :
    Grid ℝ × Grid ℝ × Grid ℝ :=
  let horizontal_edge := convolve2d image horizontal_kernel
  let vertical_edge := convolve2d image vertical_kernel
  let mag := zipWith2 (fun h v => Real.sqrt (h ^ 2 + v ^ 2)) horizontal_edge vertical_edge
  (mag, horizontal_edge, vertical_edge)

/-- The Sobel horizontal kernel of `sobel_edge`. -/
def sobelHorizontal : Grid ℝ := [[-1, 0, 1], [-2, 0, 2], [-1, 0, 1]]

/-- `vertical = np.flip(horizontal.T)`: transpose, then reverse both axes. -/
def sobelVertical : Grid ℝ := (sobelHorizontal.transpose.map List.reverse).reverse

/-- `np.arctan2 y x`, the two-argument arctangent with range `(-π, π]` and
`arctan2 0 0 = 0`; this is the argument of the complex number `x + y i`. -/
noncomputable def arctan2 (y x : ℝ) : ℝ := Complex.arg ⟨x, y⟩

/-- `sobel_edge(image, GetDirection)`.  As with `apply_kernel`, the boolean
result-shape toggle is rendered by returning the pair
`(mag, Direction)` with `Direction = np.arctan2(VerticalEdge, HorizontalEdge)`;
magnitude-only callers use `.1`. -/
noncomputable def sobel_edge (image : Grid ℝ) : Grid ℝ × Grid ℝ :=
  let r := apply_kernel image sobelHorizontal sobelVertical
  (r.1, zipWith2 (fun ve he => arctan2 ve he) r.2.2 r.2.1)

/-- `np.rad2deg`. -/
noncomputable def rad2deg (x : ℝ) : ℝ := x * (180 / Real.pi)

/-- The before/after neighbour subscripts chosen by the source's 8-way
partition of the +180-shifted degree direction (the source binds the constant
`PI = 180`): the 0° class compares east/west, 45° the one diagonal pair,
90° north/south, and the final `else` (135°) the other diagonal pair. -/
noncomputable def nmsIdx (direction : ℝ) (row col : ℕ) : (ℕ × ℕ) × (ℕ × ℕ) :=
  let PI : ℝ := 180
  if (0 ≤ direction ∧ direction < PI / 8) ∨
      (15 * PI / 8 ≤ direction ∧ direction ≤ 2 * PI) then
    ((row, col - 1), (row, col + 1))
  else if (PI / 8 ≤ direction ∧ direction < 3 * PI / 8) ∨
      (9 * PI / 8 ≤ direction ∧ direction < 11 * PI / 8) then
    ((row + 1, col - 1), (row - 1, col + 1))
  else if (3 * PI / 8 ≤ direction ∧ direction < 5 * PI / 8) ∨
      (11 * PI / 8 ≤ direction ∧ direction < 13 * PI / 8) then
    ((row - 1, col), (row + 1, col))
  else
    ((row - 1, col - 1), (row + 1, col + 1))

/-- Body of the interior loop of `NonMaximumSuppression` at `(row, col)`,
with every array subscript checked (`none` = `IndexError`, caught by the
`except` and leaving the output pixel at `0`).  The direction entry is
converted to degrees and shifted by `+180` before quantization. -/
noncomputable def nmsPixel? (GradientMagnitude GradientDirection : Grid ℝ)
    (row col : ℕ) : Option ℝ :=
  (Grid.get? GradientDirection row col).bind fun d =>
    (Grid.get? GradientMagnitude (nmsIdx (rad2deg d + 180) row col).1.1
        (nmsIdx (rad2deg d + 180) row col).1.2).bind fun before_pixel =>
      (Grid.get? GradientMagnitude (nmsIdx (rad2deg d + 180) row col).2.1
          (nmsIdx (rad2deg d + 180) row col).2.2).bind fun after_pixel =>
        (Grid.get? GradientMagnitude row col).map fun center =>
          if before_pixel ≤ center ∧ after_pixel ≤ center then center else 0

/-- `NonMaximumSuppression(GradientMagnitude, GradientDirection)`: a zero
array of the magnitude's shape whose interior pixels
(`row ∈ [1, M-2]`, `col ∈ [1, N-2]`) are filled by the loop body. -/
noncomputable def NonMaximumSuppression (GradientMagnitude GradientDirection : Grid ℝ) :
    Grid ℝ :=
  let M := GradientMagnitude.length
  let N := (GradientMagnitude.getD 0 []).length
  mkGrid M N fun row col =>
    if 1 ≤ row ∧ row < M - 1 ∧ 1 ≤ col ∧ col < N - 1 then
      (nmsPixel? GradientMagnitude GradientDirection row col).getD 0
    else 0

/-- `DoubleThreshold(Image, LowRatio, HighRatio, Weak)` (the ratio parameters
are named `low` and `high` here).  The source creates a zero array, writes
`Strong = 255` at `np.where(Image >= High)`, and then writes `Weak` at
`np.where((Image <= High) & (Image >= Low))` — the second masked write lands
after the first, so where the two masks overlap the `Weak` write is the one
that survives. -/
def DoubleThreshold {α : Type} [LinearOrderedField α]
    (Image : Grid α) (low high Weak : α) : Grid α :=
  let High := gridMax Image * high
  let Low := gridMax Image * low
  let Strong : α := 255
  let afterStrongWrite := Image.map (List.map fun v => if High ≤ v then Strong else 0)
  zipWith2 (fun v t => if v ≤ High ∧ Low ≤ v then Weak else t) Image afterStrongWrite

/-- The raster-order list of interior indices `(i, j)`,
`i ∈ range(1, M-1)` outer, `j ∈ range(1, N-1)` inner — the iteration domain
of both the `NonMaximumSuppression` and the `Hysteresis` loops. -/
def interiorIdx (M N : ℕ) : List (ℕ × ℕ) :=
  (List.range' 1 (M - 2)).product (List.range' 1 (N - 2))

/-- The eight neighbours of `(i, j)` inspected by `Hysteresis`, in the
evaluation order of the source's `or`-chain. -/
def hystNeighbors (i j : ℕ) : List (ℕ × ℕ) :=
  [(i + 1, j - 1), (i + 1, j), (i + 1, j + 1),
   (i, j - 1), (i, j + 1),
   (i - 1, j - 1), (i - 1, j), (i - 1, j + 1)]

/-- Short-circuit evaluation of `Image[q] == Strong or ...` over a list of
subscripts, with checked reads: `none` models an `IndexError` escaping the
chain (caught by the `except`). -/
def anyStrong? {α : Type} [DecidableEq α] (g : Grid α) (Strong : α) :
    List (ℕ × ℕ) → Option Bool
  | [] => some false
  | q :: qs =>
    (Grid.get? g q.1 q.2).bind fun v =>
      if v = Strong then some true else anyStrong? g Strong qs

/-- One iteration of the `Hysteresis` loop at pixel `p`: if the pixel
currently equals `Weak`, promote it to `Strong` when some neighbour currently
equals `Strong`, else set it to `0`; an `IndexError` (`none`) leaves the grid
unchanged (`pass`). -/
def hystStep {α : Type} [Zero α] [DecidableEq α] (Weak Strong : α)
    (g : Grid α) (p : ℕ × ℕ) : Grid α :=
  if Grid.get g p.1 p.2 = Weak then
    match anyStrong? g Strong (hystNeighbors p.1 p.2) with
    | some true => setPix g p.1 p.2 Strong
    | some false => setPix g p.1 p.2 (0 : α)
    | none => g
  else g

/-- `Hysteresis(Image, Weak, Strong)`: a single raster-order pass that reads
and writes the same grid, so a promotion made earlier in the pass is visible
to later neighbour checks. -/
def Hysteresis {α : Type} [Zero α] [DecidableEq α]
    (Image : Grid α) (Weak Strong : α) : Grid α :=
  (interiorIdx Image.length ((Image.getD 0 []).length)).foldl
    (hystStep Weak Strong) Image

/-- All subscripts the `NonMaximumSuppression` loop body may read at
`(i, j)`: the direction and centre at `(i, j)` and the candidate
before/after pixels of the four orientation classes. -/
def nmsAccesses (i j : ℕ) : List (ℕ × ℕ) :=
  [(i, j),
   (i, j - 1), (i, j + 1),
   (i + 1, j - 1), (i - 1, j + 1),
   (i - 1, j), (i + 1, j),
   (i - 1, j - 1), (i + 1, j + 1)]

/-- Modelled from the spec: the smoothing collaborator
`GaussianFilter(image, kernel_size, param)` lives in the module `LowPass`,
which is not part of the sources under verification.  The spec fixes only its
contract: a single-channel smoothing filter returning an image *of the same
shape*.  It is modelled as the same-shape normalized 3×3 Gaussian-weighted
average with zero padding, which satisfies that contract and maps the all-zero
image to itself. -/
noncomputable def GaussianFilter (img : Grid ℝ) (_KernelSize _StandardDeviation : ℕ) :
    Grid ℝ :=
  mkGrid img.length ((img.getD 0 []).length) fun i j =>
    (((List.range 3).map fun di =>
      (((List.range 3).map fun dj =>
        Grid.get ([[1, 2, 1], [2, 4, 2], [1, 2, 1]] : Grid ℝ) di dj *
          (if 1 ≤ i + di ∧ 1 ≤ j + dj then Grid.get img (i + di - 1) (j + dj - 1)
           else 0)).sum)).sum) / 16

/-- `canny_edge(image)`.  The leading `cv2.cvtColor` grayscale reduction is an
external conversion (spec §6); the embedding takes the single-channel grid
`Gray` directly.  The normalization `GradientMagnitude *= 255.0 / max` is
division by an exact scalar; for the degenerate all-zero magnitude the source
produces `NaN`s whose comparisons are all false, and the embedding's `x / 0 = 0`
yields the same all-zero suppressed grid, so the two agree on every grid the
downstream stages see. -/
noncomputable def canny_edge (Gray : Grid ℝ) : Grid ℝ :=
  let FilteredImage := GaussianFilter Gray 3 9
  let sobelResult := sobel_edge FilteredImage
  let GradientMagnitude := sobelResult.1
  let GradientDirection := sobelResult.2
  let Rescaled :=
    GradientMagnitude.map (List.map fun v => v * (255 / gridMax GradientMagnitude))
  let SuppressedImage := NonMaximumSuppression Rescaled GradientDirection
  let ThresholdedImage := DoubleThreshold SuppressedImage (5 / 100) (9 / 100) 70
  Hysteresis ThresholdedImage 70 255

/-- Every entry (in or out of bounds) reads as `0`. -/
def allZero {α : Type} [Zero α] (g : Grid α) : Prop :=
  ∀ i j, Grid.get g i j = 0

/-! ### Basic grid lemmas -/

theorem sobelVertical_eq : sobelVertical = [[1, 2, 1], [0, 0, 0], [-1, -2, -1]] := rfl

theorem getD_set_self {α : Type} (l : List α) (i : ℕ) (v d : α) (h : i < l.length) :
    (l.set i v).getD i d = v := by
  simp [List.getD_eq_getElem?_getD, List.getElem?_set_self h]

theorem getD_set_ne {α : Type} (l : List α) {i k : ℕ} (v d : α) (h : i ≠ k) :
    (l.set i v).getD k d = l.getD k d := by
  simp [List.getD_eq_getElem?_getD, List.getElem?_set_ne h]

theorem isSome_getElem_iff {α : Type} (l : List α) (i : ℕ) :
    l[i]?.isSome = true ↔ i < l.length := by
  constructor
  · intro h
    by_contra hc
    rw [List.getElem?_eq_none (le_of_not_lt hc)] at h
    simp at h
  · intro h
    rw [List.getElem?_eq_getElem h]
    rfl

theorem getD_eq_getElem_of_lt {α : Type} (l : List α) (d : α) {i : ℕ} (h : i < l.length) :
    l.getD i d = l[i] := by
  rw [List.getD_eq_getElem?_getD, List.getElem?_eq_getElem h]
  rfl

theorem getD_eq_default_of_le {α : Type} (l : List α) (d : α) {i : ℕ} (h : l.length ≤ i) :
    l.getD i d = d := by
  rw [List.getD_eq_getElem?_getD, List.getElem?_eq_none h]
  rfl

theorem get_oob_row {α : Type} [Zero α] (g : Grid α) {i : ℕ} (j : ℕ)
    (h : g.length ≤ i) : Grid.get g i j = 0 := by
  unfold Grid.get
  rw [getD_eq_default_of_le g _ h]
  rfl

theorem get_oob_col {α : Type} [Zero α] (g : Grid α) {i j : ℕ}
    (h : (g.getD i []).length ≤ j) : Grid.get g i j = 0 := by
  unfold Grid.get
  exact getD_eq_default_of_le _ _ h

theorem get_eq_getElem {α : Type} [Zero α] (g : Grid α) {i j : ℕ}
    (hi : i < g.length) (hj : j < (g.getD i []).length) :
    Grid.get g i j = (g.getD i [])[j] := by
  unfold Grid.get
  exact getD_eq_getElem_of_lt _ _ hj

theorem length_setPix {α : Type} (g : Grid α) (i j : ℕ) (v : α) :
    (setPix g i j v).length = g.length := by
  simp [setPix]

theorem get_setPix_self {α : Type} [Zero α] (g : Grid α) {i j : ℕ} (v : α)
    (hi : i < g.length) (hj : j < (g.getD i []).length) :
    Grid.get (setPix g i j v) i j = v := by
  unfold Grid.get setPix
  rw [getD_set_self _ _ _ _ (by simpa using hi), getD_set_self _ _ _ _ hj]

theorem get_setPix_ne {α : Type} [Zero α] (g : Grid α) {i j k l : ℕ} (v : α)
    (h : (i, j) ≠ (k, l)) :
    Grid.get (setPix g i j v) k l = Grid.get g k l := by
  unfold Grid.get setPix
  by_cases hik : i = k
  · subst hik
    have hjl : j ≠ l := fun hh => h (by rw [hh])
    by_cases hlen : i < g.length
    · rw [getD_set_self _ _ _ _ hlen, getD_set_ne _ _ _ hjl]
    · rw [List.set_eq_of_length_le (le_of_not_lt hlen)]
  · rw [getD_set_ne _ _ _ hik]

theorem WF_setPix {α : Type} (g : Grid α) (M N : ℕ) (i j : ℕ) (v : α)
    (h : WF g M N) : WF (setPix g i j v) M N := by
  obtain ⟨hlen, hrow⟩ := h
  by_cases hi : i < g.length
  · refine ⟨by simpa [setPix] using hlen, ?_⟩
    intro r hr
    rcases List.mem_or_eq_of_mem_set hr with hmem | heq
    · exact hrow r hmem
    · subst heq
      rw [List.length_set]
      exact hrow _ (by rw [getD_eq_getElem_of_lt _ _ hi]; exact List.getElem_mem hi)
  · unfold setPix
    rw [List.set_eq_of_length_le (le_of_not_lt hi)]
    exact ⟨hlen, hrow⟩

theorem WF_row_len {α : Type} {g : Grid α} {M N : ℕ} (h : WF g M N) {i : ℕ}
    (hi : i < M) : (g.getD i []).length = N := by
  obtain ⟨hlen, hrow⟩ := h
  have hi2 : i < g.length := by omega
  rw [getD_eq_getElem_of_lt _ _ hi2]
  exact hrow _ (List.getElem_mem hi2)

theorem get?_isSome_iff {α : Type} {g : Grid α} {M N : ℕ} (h : WF g M N) (i j : ℕ) :
    (Grid.get? g i j).isSome = true ↔ i < M ∧ j < N := by
  unfold Grid.get?
  by_cases hi : i < g.length
  · rw [List.getElem?_eq_getElem hi]
    have hrlen : (g[i]).length = N := h.2 _ (List.getElem_mem hi)
    have hbind : (some (g[i])).bind (fun r => r[j]?) = (g[i])[j]? := rfl
    rw [hbind, isSome_getElem_iff, hrlen]
    have hiM : i < M := by rw [← h.1]; exact hi
    tauto
  · rw [List.getElem?_eq_none (le_of_not_lt hi)]
    have hiM : ¬ i < M := by rw [← h.1]; exact hi
    simp [Option.bind, hiM]

theorem get?_eq_some_get {α : Type} [Zero α] {g : Grid α} {i j : ℕ} {v : α}
    (h : Grid.get? g i j = some v) : Grid.get g i j = v := by
  unfold Grid.get? at h
  rcases hi : g[i]? with _ | r
  · rw [hi] at h; exact Option.noConfusion h
  · rw [hi] at h
    replace h : r[j]? = some v := h
    have hilt : i < g.length := by
      by_contra hc
      rw [List.getElem?_eq_none (le_of_not_lt hc)] at hi
      exact Option.noConfusion hi
    have hjlt : j < r.length := by
      by_contra hc
      rw [List.getElem?_eq_none (le_of_not_lt hc)] at h
      exact Option.noConfusion h
    rw [List.getElem?_eq_getElem hjlt] at h
    have hr : g.getD i [] = r := by
      rw [getD_eq_getElem_of_lt _ _ hilt]
      rw [List.getElem?_eq_getElem hilt] at hi
      exact (Option.some.injEq _ _).mp hi
    unfold Grid.get
    rw [hr, getD_eq_getElem_of_lt _ _ hjlt]
    exact (Option.some.injEq _ _).mp h

theorem WF_mkGrid {α : Type} (m n : ℕ) (f : ℕ → ℕ → α) : WF (mkGrid m n f) m n := by
  constructor
  · simp [mkGrid]
  · intro r hr
    simp only [mkGrid, List.mem_map] at hr
    obtain ⟨i, _, hi⟩ := hr
    simp [← hi]

theorem mkGrid_row {α : Type} (m n : ℕ) (f : ℕ → ℕ → α) {i : ℕ} (hi : i < m) :
    (mkGrid m n f).getD i [] = (List.range n).map fun j => f i j := by
  unfold mkGrid
  have hlen : i < ((List.range m).map fun i =>
      (List.range n).map fun j => f i j).length := by simpa using hi
  rw [getD_eq_getElem_of_lt _ _ hlen, List.getElem_map, List.getElem_range]

theorem get_mkGrid {α : Type} [Zero α] (m n : ℕ) (f : ℕ → ℕ → α) {i j : ℕ}
    (hi : i < m) (hj : j < n) : Grid.get (mkGrid m n f) i j = f i j := by
  unfold Grid.get
  rw [mkGrid_row m n f hi]
  have hlen : j < ((List.range n).map fun j => f i j).length := by simpa using hj
  rw [getD_eq_getElem_of_lt _ _ hlen, List.getElem_map, List.getElem_range]

/-! ### zipWith2, gridMax and all-zero lemmas -/

theorem WF_zipWith2 {α β γ : Type} (f : α → β → γ) {a : Grid α} {b : Grid β}
    {M N : ℕ} (ha : WF a M N) (hb : WF b M N) : WF (zipWith2 f a b) M N := by
  constructor
  · rw [zipWith2, List.length_zipWith, ha.1, hb.1, min_self]
  · intro r hr
    rw [List.mem_iff_getElem] at hr
    obtain ⟨k, hk, hr⟩ := hr
    simp only [zipWith2] at hk hr
    rw [List.getElem_zipWith] at hr
    have hka : k < a.length := by
      rw [List.length_zipWith] at hk; omega
    have hkb : k < b.length := by
      rw [List.length_zipWith] at hk; omega
    rw [← hr, List.length_zipWith, ha.2 _ (List.getElem_mem hka),
      hb.2 _ (List.getElem_mem hkb), min_self]

theorem get_zipWith2 {α β γ : Type} [Zero α] [Zero β] [Zero γ]
    (f : α → β → γ) (a : Grid α) (b : Grid β) {i j : ℕ}
    (hia : i < a.length) (hib : i < b.length)
    (hja : j < (a.getD i []).length) (hjb : j < (b.getD i []).length) :
    Grid.get (zipWith2 f a b) i j = f (Grid.get a i j) (Grid.get b i j) := by
  have hiz : i < (zipWith2 f a b).length := by
    rw [zipWith2, List.length_zipWith]; omega
  have hrow : (zipWith2 f a b).getD i [] =
      List.zipWith f (a.getD i []) (b.getD i []) := by
    rw [getD_eq_getElem_of_lt _ _ hiz]
    simp only [zipWith2] at hiz ⊢
    rw [List.getElem_zipWith]
    rw [getD_eq_getElem_of_lt _ _ hia, getD_eq_getElem_of_lt _ _ hib]
  have hjz : j < (List.zipWith f (a.getD i []) (b.getD i [])).length := by
    rw [List.length_zipWith]; omega
  unfold Grid.get
  rw [hrow, getD_eq_getElem_of_lt _ _ hjz, List.getElem_zipWith,
    getD_eq_getElem_of_lt _ _ hja, getD_eq_getElem_of_lt _ _ hjb]

theorem allZero_of_inbounds {α : Type} [Zero α] {g : Grid α}
    (h : ∀ i j, i < g.length → j < (g.getD i []).length → Grid.get g i j = 0) :
    allZero g := by
  intro i j
  by_cases hi : i < g.length
  · by_cases hj : j < (g.getD i []).length
    · exact h i j hi hj
    · exact get_oob_col g (le_of_not_lt hj)
  · exact get_oob_row g j (le_of_not_lt hi)

theorem entry_eq_get {α : Type} [Zero α] {g : Grid α} {y : α}
    (hy : y ∈ g.flatten) : ∃ i j, i < g.length ∧ j < (g.getD i []).length ∧
      Grid.get g i j = y := by
  rw [List.mem_flatten] at hy
  obtain ⟨r, hr, hyr⟩ := hy
  rw [List.mem_iff_getElem] at hr
  obtain ⟨i, hi, hr⟩ := hr
  rw [List.mem_iff_getElem] at hyr
  obtain ⟨j, hj, hyr⟩ := hyr
  refine ⟨i, j, hi, ?_, ?_⟩
  · rw [getD_eq_getElem_of_lt _ _ hi, hr]; exact hj
  · unfold Grid.get
    rw [getD_eq_getElem_of_lt _ _ hi, hr,
      getD_eq_getElem_of_lt _ _ hj]
    exact hyr

theorem foldl_max_const {α : Type} [LinearOrder α] (x0 : α) :
    ∀ l : List α, (∀ x ∈ l, x = x0) → l.foldl max x0 = x0 := by
  intro l
  induction l with
  | nil => intro _; rfl
  | cons x xs ih =>
    intro h
    have hx : x = x0 := h x (List.mem_cons_self x xs)
    rw [List.foldl_cons, hx, max_self]
    exact ih fun y hy => h y (List.mem_cons_of_mem _ hy)

theorem gridMax_allZero {α : Type} [LinearOrder α] [Zero α] {g : Grid α} {M N : ℕ}
    (hwf : WF g M N) (hM : 0 < M) (hN : 0 < N) (hz : allZero g) : gridMax g = 0 := by
  have hzf : ∀ y ∈ g.flatten, y = (0 : α) := by
    intro y hy
    obtain ⟨i, j, _, _, hget⟩ := entry_eq_get hy
    rw [← hget, hz]
  unfold gridMax
  rcases hf : g.flatten with _ | ⟨x, xs⟩
  · exfalso
    rcases hg : g with _ | ⟨r, t⟩
    · rw [hg] at hwf; have := hwf.1; simp at this; omega
    · have hr : r.length = N := hwf.2 r (by rw [hg]; exact List.mem_cons_self r t)
      rcases hrr : r with _ | ⟨y, r2⟩
      · rw [hrr] at hr; simp at hr; omega
      · rw [hg, hrr] at hf
        rw [List.flatten_cons] at hf
        simp at hf
  · have hx : x = 0 := hzf x (by rw [hf]; exact List.mem_cons_self x xs)
    rw [hx]
    exact foldl_max_const 0 xs fun y hy => hzf y (by rw [hf]; exact List.mem_cons_of_mem _ hy)

/-! ### Convolution lemmas -/

theorem convolve2d_eq_mkGrid {α : Type} [LinearOrderedField α] (in1 in2 : Grid α) :
    convolve2d in1 in2 =
      mkGrid (in1.length + in2.length - 1)
        ((in1.getD 0 []).length + (in2.getD 0 []).length - 1) fun i j =>
        (((List.range in2.length).map fun k =>
          (((List.range ((in2.getD 0 []).length)).map fun l =>
            Grid.get in2 k l *
              (if k ≤ i ∧ l ≤ j then Grid.get in1 (i - k) (j - l) else 0)).sum)).sum) := rfl

theorem WF_convolve2d {α : Type} [LinearOrderedField α] {in1 in2 : Grid α}
    {M N Kh Kw : ℕ} (h1 : WF in1 M N) (h2 : WF in2 Kh Kw)
    (hM : 0 < M) (hKh : 0 < Kh) :
    WF (convolve2d in1 in2) (M + Kh - 1) (N + Kw - 1) := by
  rw [convolve2d_eq_mkGrid, h1.1, h2.1, WF_row_len h1 hM, WF_row_len h2 hKh]
  exact WF_mkGrid _ _ _

theorem allZero_convolve2d {α : Type} [LinearOrderedField α] {in1 : Grid α}
    (in2 : Grid α) (hz : allZero in1) : allZero (convolve2d in1 in2) := by
  apply allZero_of_inbounds
  intro i j hi hj
  rw [convolve2d_eq_mkGrid] at hi hj ⊢
  have hwf := WF_mkGrid (in1.length + in2.length - 1)
    ((in1.getD 0 []).length + (in2.getD 0 []).length - 1)
    (fun i j => (((List.range in2.length).map fun k =>
      (((List.range ((in2.getD 0 []).length)).map fun l =>
        Grid.get in2 k l *
          (if k ≤ i ∧ l ≤ j then Grid.get in1 (i - k) (j - l) else 0)).sum)).sum))
  rw [hwf.1] at hi
  rw [WF_row_len hwf hi] at hj
  rw [get_mkGrid _ _ _ hi hj]
  apply List.sum_eq_zero
  intro x hx
  rw [List.mem_map] at hx
  obtain ⟨k, _, hx⟩ := hx
  rw [← hx]
  apply List.sum_eq_zero
  intro y hy
  rw [List.mem_map] at hy
  obtain ⟨l, _, hy⟩ := hy
  rw [← hy]
  by_cases hc : k ≤ i ∧ l ≤ j
  · rw [if_pos hc, hz (i - k) (j - l), mul_zero]
  · rw [if_neg hc, mul_zero]

/-! ### Hysteresis pass lemmas -/

theorem set_self_of_getElem {α : Type} (l : List α) (i : ℕ) (h : i < l.length) :
    l.set i (l[i]) = l := by
  apply List.ext_getElem
  · simp
  · intro n h1 h2
    rw [List.getElem_set]
    split
    · subst ‹i = n›; rfl
    · rfl

theorem get_setPix_cases {α : Type} [Zero α] (g : Grid α) (i j k l : ℕ) (v : α) :
    Grid.get (setPix g i j v) k l = v ∨
      Grid.get (setPix g i j v) k l = Grid.get g k l := by
  by_cases hik : (i, j) = (k, l)
  · obtain ⟨hi, hj⟩ := Prod.mk.injEq .. ▸ hik
    subst hi; subst hj
    by_cases hi2 : i < g.length
    · by_cases hj2 : j < (g.getD i []).length
      · exact Or.inl (get_setPix_self g v hi2 hj2)
      · right
        unfold setPix
        rw [List.set_eq_of_length_le (l := g.getD i []) (le_of_not_lt hj2),
          getD_eq_getElem_of_lt _ _ hi2, set_self_of_getElem]
    · right
      unfold setPix
      rw [List.set_eq_of_length_le (le_of_not_lt hi2)]
  · exact Or.inr (get_setPix_ne g v hik)

theorem mem_interiorIdx {M N : ℕ} {p : ℕ × ℕ} :
    p ∈ interiorIdx M N ↔ 1 ≤ p.1 ∧ p.1 < M - 1 ∧ 1 ≤ p.2 ∧ p.2 < N - 1 := by
  obtain ⟨i, j⟩ := p
  rw [interiorIdx, List.pair_mem_product, List.mem_range'_1, List.mem_range'_1]
  omega

theorem nodup_interiorIdx (M N : ℕ) : (interiorIdx M N).Nodup :=
  List.Nodup.product (List.nodup_range' _ _) (List.nodup_range' _ _)

theorem hystStep_get_ne {α : Type} [Zero α] [DecidableEq α] (W S : α)
    (g : Grid α) (p q : ℕ × ℕ) (h : p ≠ q) :
    Grid.get (hystStep W S g p) q.1 q.2 = Grid.get g q.1 q.2 := by
  have hne : (p.1, p.2) ≠ (q.1, q.2) := by
    intro hc
    exact h (Prod.ext (congrArg Prod.fst hc) (congrArg Prod.snd hc))
  unfold hystStep
  by_cases hw : Grid.get g p.1 p.2 = W
  · rw [if_pos hw]
    rcases h2 : anyStrong? g S (hystNeighbors p.1 p.2) with _ | b
    · rfl
    · cases b
      · exact get_setPix_ne g _ hne
      · exact get_setPix_ne g _ hne
  · rw [if_neg hw]

theorem hystStep_WF {α : Type} [Zero α] [DecidableEq α] (W S : α)
    (g : Grid α) (p : ℕ × ℕ) {M N : ℕ} (h : WF g M N) :
    WF (hystStep W S g p) M N := by
  unfold hystStep
  by_cases hw : Grid.get g p.1 p.2 = W
  · rw [if_pos hw]
    rcases anyStrong? g S (hystNeighbors p.1 p.2) with _ | b
    · exact h
    · cases b
      · exact WF_setPix g M N _ _ _ h
      · exact WF_setPix g M N _ _ _ h
  · rw [if_neg hw]
    exact h

theorem foldl_hystStep_WF {α : Type} [Zero α] [DecidableEq α] (W S : α)
    {M N : ℕ} :
    ∀ (l : List (ℕ × ℕ)) (g : Grid α), WF g M N →
      WF (l.foldl (hystStep W S) g) M N := by
  intro l
  induction l with
  | nil => exact fun g h => h
  | cons p l ih =>
    intro g h
    rw [List.foldl_cons]
    exact ih _ (hystStep_WF W S g p h)

theorem foldl_hystStep_not_mem {α : Type} [Zero α] [DecidableEq α] (W S : α) :
    ∀ (l : List (ℕ × ℕ)) (g : Grid α) (q : ℕ × ℕ), q ∉ l →
      Grid.get (l.foldl (hystStep W S) g) q.1 q.2 = Grid.get g q.1 q.2 := by
  intro l
  induction l with
  | nil => intro g q _; rfl
  | cons p l ih =>
    intro g q hq
    rw [List.foldl_cons]
    have hpq : p ≠ q := fun hc => hq (hc ▸ List.mem_cons_self p l)
    rw [ih _ q (fun hc => hq (List.mem_cons_of_mem _ hc))]
    exact hystStep_get_ne W S g p q hpq

theorem foldl_hystStep_nonweak {α : Type} [Zero α] [DecidableEq α] (W S : α) :
    ∀ (l : List (ℕ × ℕ)) (g : Grid α) (q : ℕ × ℕ),
      Grid.get g q.1 q.2 ≠ W →
      Grid.get (l.foldl (hystStep W S) g) q.1 q.2 = Grid.get g q.1 q.2 := by
  intro l
  induction l with
  | nil => intro g q _; rfl
  | cons p l ih =>
    intro g q hq
    rw [List.foldl_cons]
    by_cases hpq : p = q
    · subst hpq
      have hstep : hystStep W S g p = g := by
        unfold hystStep
        rw [if_neg hq]
      rw [hstep]
      exact ih g p hq
    · have hstep := hystStep_get_ne W S g p q hpq
      rw [ih _ q (by rw [hstep]; exact hq), hstep]

theorem anyStrong?_ne_none {α : Type} [DecidableEq α] (g : Grid α) (S : α) :
    ∀ qs : List (ℕ × ℕ), (∀ r ∈ qs, (Grid.get? g r.1 r.2).isSome = true) →
      anyStrong? g S qs ≠ none := by
  intro qs
  induction qs with
  | nil => intro _ hc; exact Option.noConfusion hc
  | cons r qs ih =>
    intro h
    have hr := h r (List.mem_cons_self r qs)
    rcases hv : Grid.get? g r.1 r.2 with _ | v
    · rw [hv] at hr; simp at hr
    · unfold anyStrong?
      rw [hv, Option.some_bind]
      by_cases hvs : v = S
      · rw [if_pos hvs]
        intro hc; exact Option.noConfusion hc
      · rw [if_neg hvs]
        exact ih fun x hx => h x (List.mem_cons_of_mem _ hx)

theorem anyStrong?_eq_some_false {α : Type} [Zero α] [DecidableEq α]
    (g : Grid α) (S : α) (hns : ∀ i j, Grid.get g i j ≠ S) :
    ∀ qs : List (ℕ × ℕ), (∀ r ∈ qs, (Grid.get? g r.1 r.2).isSome = true) →
      anyStrong? g S qs = some false := by
  intro qs
  induction qs with
  | nil => intro _; rfl
  | cons r qs ih =>
    intro h
    have hr := h r (List.mem_cons_self r qs)
    rcases hv : Grid.get? g r.1 r.2 with _ | v
    · rw [hv] at hr; simp at hr
    · unfold anyStrong?
      rw [hv, Option.some_bind]
      have hvg : Grid.get g r.1 r.2 = v := get?_eq_some_get hv
      rw [if_neg (hvg ▸ hns r.1 r.2)]
      exact ih fun x hx => h x (List.mem_cons_of_mem _ hx)

theorem hystNeighbors_inbounds {M N : ℕ} {p : ℕ × ℕ}
    (hp : p ∈ interiorIdx M N) :
    ∀ r ∈ hystNeighbors p.1 p.2, r.1 < M ∧ r.2 < N := by
  rw [mem_interiorIdx] at hp
  intro r hr
  simp only [hystNeighbors, List.mem_cons, List.not_mem_nil, or_false] at hr
  rcases hr with h | h | h | h | h | h | h | h <;> subst h <;> constructor <;> simp <;> omega

theorem anyStrong?_eq_true_imp {α : Type} [Zero α] [DecidableEq α]
    (g : Grid α) (S : α) :
    ∀ qs : List (ℕ × ℕ), anyStrong? g S qs = some true →
      ∃ r ∈ qs, Grid.get g r.1 r.2 = S := by
  intro qs
  induction qs with
  | nil =>
    intro hc
    simp [anyStrong?] at hc
  | cons r qs ih =>
    intro h
    unfold anyStrong? at h
    rcases hv : Grid.get? g r.1 r.2 with _ | v
    · rw [hv] at h; exact Option.noConfusion h
    · rw [hv, Option.some_bind] at h
      by_cases hvs : v = S
      · exact ⟨r, List.mem_cons_self r qs, (get?_eq_some_get hv).trans hvs⟩
      · rw [if_neg hvs] at h
        obtain ⟨x, hx, hxs⟩ := ih h
        exact ⟨x, List.mem_cons_of_mem _ hx, hxs⟩

theorem zero_ne_of_noStrong {α : Type} [Zero α] {g : Grid α} {S : α}
    (hns : ∀ i j, Grid.get g i j ≠ S) : (0 : α) ≠ S := by
  have := hns g.length 0
  rw [get_oob_row g 0 le_rfl] at this
  exact this

theorem hystStep_noStrong {α : Type} [Zero α] [DecidableEq α] (W S : α)
    (g : Grid α) (p : ℕ × ℕ) (hns : ∀ i j, Grid.get g i j ≠ S) :
    ∀ k l, Grid.get (hystStep W S g p) k l ≠ S := by
  intro k l
  unfold hystStep
  by_cases hw : Grid.get g p.1 p.2 = W
  · rw [if_pos hw]
    rcases h2 : anyStrong? g S (hystNeighbors p.1 p.2) with _ | b
    · exact hns k l
    · cases b
      · rcases get_setPix_cases g p.1 p.2 k l 0 with h | h
        · rw [h]; exact zero_ne_of_noStrong hns
        · rw [h]; exact hns k l
      · obtain ⟨r, _, hrS⟩ := anyStrong?_eq_true_imp g S _ h2
        exact absurd hrS (hns r.1 r.2)
  · rw [if_neg hw]
    exact hns k l

theorem foldl_hystStep_noStrong {α : Type} [Zero α] [DecidableEq α] (W S : α) :
    ∀ (l : List (ℕ × ℕ)) (g : Grid α), (∀ i j, Grid.get g i j ≠ S) →
      ∀ k m, Grid.get (l.foldl (hystStep W S) g) k m ≠ S := by
  intro l
  induction l with
  | nil => intro g h k m; exact h k m
  | cons p l ih =>
    intro g h k m
    rw [List.foldl_cons]
    exact ih _ (hystStep_noStrong W S g p h) k m

theorem foldl_hystStep_weak_result {α : Type} [Zero α] [DecidableEq α]
    (W S : α) {M N : ℕ} :
    ∀ (l : List (ℕ × ℕ)) (g : Grid α), l.Nodup →
      (∀ p ∈ l, p ∈ interiorIdx M N) → WF g M N →
      ∀ q ∈ l, Grid.get g q.1 q.2 = W →
      Grid.get (l.foldl (hystStep W S) g) q.1 q.2 = 0 ∨
        Grid.get (l.foldl (hystStep W S) g) q.1 q.2 = S := by
  intro l
  induction l with
  | nil => intro g _ _ _ q hq; exact absurd hq (List.not_mem_nil q)
  | cons p l ih =>
    intro g hnd hint hwf q hq hw
    rw [List.foldl_cons]
    have hpmem := hint p (List.mem_cons_self p l)
    have hnotmem : p ∉ l := (List.nodup_cons.mp hnd).1
    rcases List.mem_cons.mp hq with rfl | hmem
    · have hin := mem_interiorIdx.mp hpmem
      have hbound1 : q.1 < g.length := by rw [hwf.1]; omega
      have hbound2 : q.2 < (g.getD q.1 []).length := by
        rw [WF_row_len hwf (show q.1 < M by omega)]; omega
      rcases h2 : anyStrong? g S (hystNeighbors q.1 q.2) with _ | b
      · exfalso
        exact anyStrong?_ne_none g S _
          (fun r hr =>
            (get?_isSome_iff hwf r.1 r.2).mpr (hystNeighbors_inbounds hpmem r hr)) h2
      · cases b

        · left
          have hstep : hystStep W S g q = setPix g q.1 q.2 0 := by
            unfold hystStep
            rw [if_pos hw, h2]
          rw [hstep, foldl_hystStep_not_mem W S l _ q hnotmem]
          exact get_setPix_self g 0 hbound1 hbound2
        · right
          have hstep : hystStep W S g q = setPix g q.1 q.2 S := by
            unfold hystStep
            rw [if_pos hw, h2]
          rw [hstep, foldl_hystStep_not_mem W S l _ q hnotmem]
          exact get_setPix_self g S hbound1 hbound2
    · have hpq : p ≠ q := fun hc => hnotmem (hc ▸ hmem)
      exact ih (hystStep W S g p) (List.nodup_cons.mp hnd).2
        (fun x hx => hint x (List.mem_cons_of_mem _ hx))
        (hystStep_WF W S g p hwf) q hmem
        (by rw [hystStep_get_ne W S g p q hpq]; exact hw)

theorem foldl_hystStep_weak_noStrong {α : Type} [Zero α] [DecidableEq α]
    (W S : α) {M N : ℕ} :
    ∀ (l : List (ℕ × ℕ)) (g : Grid α), l.Nodup →
      (∀ p ∈ l, p ∈ interiorIdx M N) → WF g M N →
      (∀ i j, Grid.get g i j ≠ S) →
      ∀ q ∈ l, Grid.get g q.1 q.2 = W →
      Grid.get (l.foldl (hystStep W S) g) q.1 q.2 = 0 := by
  intro l
  induction l with
  | nil => intro g _ _ _ _ q hq; exact absurd hq (List.not_mem_nil q)
  | cons p l ih =>
    intro g hnd hint hwf hns q hq hw
    rw [List.foldl_cons]
    have hpmem := hint p (List.mem_cons_self p l)
    have hnotmem : p ∉ l := (List.nodup_cons.mp hnd).1
    rcases List.mem_cons.mp hq with rfl | hmem
    · have hin := mem_interiorIdx.mp hpmem
      have hbound1 : q.1 < g.length := by rw [hwf.1]; omega
      have hbound2 : q.2 < (g.getD q.1 []).length := by
        rw [WF_row_len hwf (show q.1 < M by omega)]; omega
      have h2 : anyStrong? g S (hystNeighbors q.1 q.2) = some false :=
        anyStrong?_eq_some_false g S hns _
          (fun r hr =>
            (get?_isSome_iff hwf r.1 r.2).mpr (hystNeighbors_inbounds hpmem r hr))
      have hstep : hystStep W S g q = setPix g q.1 q.2 0 := by
        unfold hystStep
        rw [if_pos hw, h2]
      rw [hstep, foldl_hystStep_not_mem W S l _ q hnotmem]
      exact get_setPix_self g 0 hbound1 hbound2
    · have hpq : p ≠ q := fun hc => hnotmem (hc ▸ hmem)
      exact ih (hystStep W S g p) (List.nodup_cons.mp hnd).2
        (fun x hx => hint x (List.mem_cons_of_mem _ hx))
        (hystStep_WF W S g p hwf)
        (hystStep_noStrong W S g p hns) q hmem
        (by rw [hystStep_get_ne W S g p q hpq]; exact hw)

theorem foldl_hystStep_id {α : Type} [Zero α] [DecidableEq α] (W S : α) :
    ∀ (l : List (ℕ × ℕ)) (g : Grid α),
      (∀ p ∈ l, Grid.get g p.1 p.2 ≠ W) →
      l.foldl (hystStep W S) g = g := by
  intro l
  induction l with
  | nil => intro g _; rfl
  | cons p l ih =>
    intro g h
    rw [List.foldl_cons]
    have hstep : hystStep W S g p = g := by
      unfold hystStep
      rw [if_neg (h p (List.mem_cons_self p l))]
    rw [hstep]
    exact ih g fun x hx => h x (List.mem_cons_of_mem _ hx)

theorem Hysteresis_eq_foldl {α : Type} [Zero α] [DecidableEq α]
    (g : Grid α) (W S : α) {M N : ℕ} (hwf : WF g M N) :
    Hysteresis g W S = (interiorIdx M N).foldl (hystStep W S) g := by
  by_cases hM : 0 < M
  · unfold Hysteresis
    rw [hwf.1, WF_row_len hwf hM]
  · have hM0 : M = 0 := by omega
    subst hM0
    have hg : g = [] := List.length_eq_zero.mp hwf.1
    subst hg
    rfl

/-! ### Non-maximum suppression lemmas -/

theorem nms_eq_mkGrid (GradientMagnitude GradientDirection : Grid ℝ) :
    NonMaximumSuppression GradientMagnitude GradientDirection =
      mkGrid GradientMagnitude.length ((GradientMagnitude.getD 0 []).length)
        (fun row col =>
          if 1 ≤ row ∧ row < GradientMagnitude.length - 1 ∧
              1 ≤ col ∧ col < (GradientMagnitude.getD 0 []).length - 1 then
            (nmsPixel? GradientMagnitude GradientDirection row col).getD 0
          else 0) := rfl

theorem WF_nms {M N : ℕ} {GradientMagnitude : Grid ℝ} (GradientDirection : Grid ℝ)
    (hm : WF GradientMagnitude M N) :
    WF (NonMaximumSuppression GradientMagnitude GradientDirection) M N := by
  by_cases hM : 0 < M
  · rw [nms_eq_mkGrid, hm.1, WF_row_len hm hM]
    exact WF_mkGrid _ _ _
  · have hM0 : M = 0 := by omega
    subst hM0
    constructor
    · rw [nms_eq_mkGrid, hm.1]
      rfl
    · intro r hr
      rw [nms_eq_mkGrid, hm.1] at hr
      exact absurd hr (List.not_mem_nil r)

theorem nmsPixel?_getD_cases (GradientMagnitude GradientDirection : Grid ℝ)
    (row col : ℕ) :
    (nmsPixel? GradientMagnitude GradientDirection row col).getD 0 = 0 ∨
      (nmsPixel? GradientMagnitude GradientDirection row col).getD 0 =
        Grid.get GradientMagnitude row col := by
  unfold nmsPixel?
  rcases hd : Grid.get? GradientDirection row col with _ | d
  · left; rfl
  · rw [Option.some_bind]
    generalize nmsIdx (rad2deg d + 180) row col = idx
    rcases hb : Grid.get? GradientMagnitude idx.1.1 idx.1.2 with _ | bp
    · left; rfl
    · rw [Option.some_bind]
      rcases ha : Grid.get? GradientMagnitude idx.2.1 idx.2.2 with _ | ap
      · left; rfl
      · rw [Option.some_bind]
        rcases hc : Grid.get? GradientMagnitude row col with _ | center
        · left; rfl
        · rw [Option.map_some']
          have hcg := get?_eq_some_get hc
          by_cases hcond : bp ≤ center ∧ ap ≤ center
          · right
            rw [Option.getD_some, if_pos hcond, hcg]
          · left
            rw [Option.getD_some, if_neg hcond]

theorem nmsIdx_cases (d : ℝ) (row col : ℕ) :
    nmsIdx d row col = ((row, col - 1), (row, col + 1)) ∨
    nmsIdx d row col = ((row + 1, col - 1), (row - 1, col + 1)) ∨
    nmsIdx d row col = ((row - 1, col), (row + 1, col)) ∨
    nmsIdx d row col = ((row - 1, col - 1), (row + 1, col + 1)) := by
  simp only [nmsIdx]
  split_ifs <;> tauto

theorem nmsAccesses_inbounds {M N : ℕ} {p : ℕ × ℕ}
    (hp : p ∈ interiorIdx M N) :
    ∀ r ∈ nmsAccesses p.1 p.2, r.1 < M ∧ r.2 < N := by
  rw [mem_interiorIdx] at hp
  intro r hr
  simp only [nmsAccesses, List.mem_cons, List.not_mem_nil, or_false] at hr
  rcases hr with h | h | h | h | h | h | h | h | h <;> subst h <;>
    constructor <;> simp <;> omega

theorem bindChain_isSome {mag : Grid ℝ} {M N : ℕ} (hm : WF mag M N)
    {a b : ℕ × ℕ} {row col : ℕ}
    (ha1 : a.1 < M) (ha2 : a.2 < N) (hb1 : b.1 < M) (hb2 : b.2 < N)
    (hr : row < M) (hc : col < N) :
    ((Grid.get? mag a.1 a.2).bind fun before_pixel =>
      (Grid.get? mag b.1 b.2).bind fun after_pixel =>
        (Grid.get? mag row col).map fun center =>
          if before_pixel ≤ center ∧ after_pixel ≤ center then center
          else 0).isSome = true := by
  rcases h1 : Grid.get? mag a.1 a.2 with _ | bp
  · have := (get?_isSome_iff hm a.1 a.2).mpr ⟨ha1, ha2⟩
    rw [h1] at this; simp at this
  · rw [Option.some_bind]
    rcases h2 : Grid.get? mag b.1 b.2 with _ | ap
    · have := (get?_isSome_iff hm b.1 b.2).mpr ⟨hb1, hb2⟩
      rw [h2] at this; simp at this
    · rw [Option.some_bind]
      rcases h3 : Grid.get? mag row col with _ | center
      · have := (get?_isSome_iff hm row col).mpr ⟨hr, hc⟩
        rw [h3] at this; simp at this
      · simp

theorem nmsPixel?_isSome {M N : ℕ} {mag dir : Grid ℝ}
    (hm : WF mag M N) (hd2 : WF dir M N) {row col : ℕ}
    (h1 : 1 ≤ row) (h2 : row < M - 1) (h3 : 1 ≤ col) (h4 : col < N - 1) :
    (nmsPixel? mag dir row col).isSome = true := by
  have hdir : (Grid.get? dir row col).isSome = true :=
    (get?_isSome_iff hd2 _ _).mpr ⟨by omega, by omega⟩
  rcases hdv : Grid.get? dir row col with _ | d
  · rw [hdv] at hdir; simp at hdir
  · unfold nmsPixel?
    rw [hdv, Option.some_bind]
    generalize hgen : nmsIdx (rad2deg d + 180) row col = idx
    have hidx := nmsIdx_cases (rad2deg d + 180) row col
    rw [hgen] at hidx
    have hb1 : idx.1.1 < M := by
      rcases hidx with h | h | h | h <;> subst h <;> simp <;> omega
    have hb2 : idx.1.2 < N := by
      rcases hidx with h | h | h | h <;> subst h <;> simp <;> omega
    have hb3 : idx.2.1 < M := by
      rcases hidx with h | h | h | h <;> subst h <;> simp <;> omega
    have hb4 : idx.2.2 < N := by
      rcases hidx with h | h | h | h <;> subst h <;> simp <;> omega
    exact bindChain_isSome hm hb1 hb2 hb3 hb4 (by omega) (by omega)

/-! ### Double threshold lemmas -/

theorem map_grid_row {α β : Type} (g : Grid α) (h : α → β) {i : ℕ}
    (hi : i < g.length) :
    (g.map (List.map h)).getD i [] = (g.getD i []).map h := by
  have hi2 : i < (g.map (List.map h)).length := by simpa using hi
  rw [getD_eq_getElem_of_lt _ _ hi2, List.getElem_map,
    getD_eq_getElem_of_lt _ _ hi]

theorem get_map_grid {α β : Type} [Zero α] [Zero β] (g : Grid α) (h : α → β)
    {i j : ℕ} (hi : i < g.length) (hj : j < (g.getD i []).length) :
    Grid.get (g.map (List.map h)) i j = h (Grid.get g i j) := by
  unfold Grid.get
  rw [map_grid_row g h hi]
  have hj2 : j < ((g.getD i []).map h).length := by simpa using hj
  rw [getD_eq_getElem_of_lt _ _ hj2, List.getElem_map,
    getD_eq_getElem_of_lt _ _ hj]

theorem doubleThreshold_get {α : Type} [LinearOrderedField α]
    (Image : Grid α) (low high Weak : α) {i j : ℕ}
    (hi : i < Image.length) (hj : j < (Image.getD i []).length) :
    Grid.get (DoubleThreshold Image low high Weak) i j =
      (if Grid.get Image i j ≤ gridMax Image * high ∧
          gridMax Image * low ≤ Grid.get Image i j then Weak
       else if gridMax Image * high ≤ Grid.get Image i j then 255 else 0) := by
  have hstep : DoubleThreshold Image low high Weak =
      zipWith2 (fun v t => if v ≤ gridMax Image * high ∧ gridMax Image * low ≤ v
          then Weak else t)
        Image (Image.map (List.map fun v =>
          if gridMax Image * high ≤ v then (255 : α) else 0)) := rfl
  rw [hstep]
  rw [get_zipWith2 _ Image _ hi (by simpa using hi) hj
    (by rw [map_grid_row _ _ hi]; simpa using hj)]
  rw [get_map_grid _ _ hi hj]

/-! ### Claim theorems -/

/-- C1 counterexample: in `DoubleThreshold` the masked `Weak` write is applied
after the masked `Strong` write, so where the two masks overlap the `Weak`
value survives.  For the grid `[[10, 50, 100]]` with ratios `1/10` and `1/2`
the high threshold is `max * 1/2 = 50`; the pixel of value `50` satisfies
`Image ≥ High`, yet its output is the Weak sentinel `70`, not Strong `255` —
refuting the claim that the Strong set is exactly `{p : grid p ≥ High}` and
that a pixel exactly at the high threshold is classified Strong. -/
theorem doubleThreshold_at_high_is_weak :
    gridMax ([[10, 50, 100]] : Grid ℚ) * (1 / 2) = 50 ∧
    Grid.get ([[10, 50, 100]] : Grid ℚ) 0 1 = 50 ∧
    Grid.get (DoubleThreshold ([[10, 50, 100]] : Grid ℚ) (1 / 10) (1 / 2) 70) 0 1 = 70 ∧
    (70 : ℚ) ≠ 255 := by
  refine ⟨?_, by decide, ?_, by decide⟩
  · norm_num [gridMax]
  · norm_num [DoubleThreshold, gridMax, zipWith2, Grid.get]

/-- C1 amended: the `DoubleThreshold` output holds only the three values
`{0, Weak, 255}` (second conjunct), and each pixel is classified by the
source's two sequential masked writes with the weak write landing last: a
pixel is `Weak` iff `Low ≤ v ≤ High`, otherwise `Strong = 255` iff `v ≥ High`,
otherwise `0` (first conjunct).  Consequently the Strong set is
`{p : v ≥ High ∧ ¬(Low ≤ v ≤ High)}`, and a pixel exactly at the high
threshold (with `Low ≤ High`) is classified Weak, not Strong. -/
theorem doubleThreshold_classification {α : Type} [LinearOrderedField α]
    (Image : Grid α) (low high Weak : α) (i j : ℕ)
    (hi : i < Image.length) (hj : j < (Image.getD i []).length) :
    (Grid.get (DoubleThreshold Image low high Weak) i j =
      (if Grid.get Image i j ≤ gridMax Image * high ∧
          gridMax Image * low ≤ Grid.get Image i j then Weak
       else if gridMax Image * high ≤ Grid.get Image i j then 255 else 0)) ∧
    (Grid.get (DoubleThreshold Image low high Weak) i j = 0 ∨
      Grid.get (DoubleThreshold Image low high Weak) i j = Weak ∨
      Grid.get (DoubleThreshold Image low high Weak) i j = 255) := by
  have hh := doubleThreshold_get Image low high Weak hi hj
  refine ⟨hh, ?_⟩
  rw [hh]
  by_cases h1 : Grid.get Image i j ≤ gridMax Image * high ∧
      gridMax Image * low ≤ Grid.get Image i j
  · rw [if_pos h1]; tauto
  · rw [if_neg h1]
    by_cases h2 : gridMax Image * high ≤ Grid.get Image i j
    · rw [if_pos h2]; tauto
    · rw [if_neg h2]; tauto

theorem doubleThreshold_classification_witness :
    (0 : ℕ) < ([[10, 50, 100]] : Grid ℚ).length ∧
    (1 : ℕ) < (([[10, 50, 100]] : Grid ℚ).getD 0 []).length ∧
    (Grid.get (DoubleThreshold ([[10, 50, 100]] : Grid ℚ) (1 / 10) (1 / 2) 70) 0 1 = 0 ∨
      Grid.get (DoubleThreshold ([[10, 50, 100]] : Grid ℚ) (1 / 10) (1 / 2) 70) 0 1 = 70 ∨
      Grid.get (DoubleThreshold ([[10, 50, 100]] : Grid ℚ) (1 / 10) (1 / 2) 70) 0 1 = 255) :=
  ⟨by decide, by decide,
    (doubleThreshold_classification ([[10, 50, 100]] : Grid ℚ) (1 / 10) (1 / 2) 70 0 1
      (by decide) (by decide)).2⟩

/-- C6: for a nonempty `M × N` image and a kernel pair of size `Kh × Kw`,
`apply_kernel` performs full-mode convolution: the magnitude grid and both
directional component grids are all well-formed `(M + Kh - 1) × (N + Kw - 1)`
arrays — in particular the two component grids have identical shape, keeping
magnitude and direction pixel-aligned. -/
theorem apply_kernel_full_mode_shape (image horizontal_kernel vertical_kernel : Grid ℝ)
    (M N Kh Kw : ℕ) (him : WF image M N)
    (hhk : WF horizontal_kernel Kh Kw) (hvk : WF vertical_kernel Kh Kw)
    (hM : 1 ≤ M) (hN : 1 ≤ N) (hKh : 1 ≤ Kh) (hKw : 1 ≤ Kw) :
    WF (apply_kernel image horizontal_kernel vertical_kernel).1
        (M + Kh - 1) (N + Kw - 1) ∧
    WF (apply_kernel image horizontal_kernel vertical_kernel).2.1
        (M + Kh - 1) (N + Kw - 1) ∧
    WF (apply_kernel image horizontal_kernel vertical_kernel).2.2
        (M + Kh - 1) (N + Kw - 1) := by
  have whk : WF (convolve2d image horizontal_kernel) (M + Kh - 1) (N + Kw - 1) :=
    WF_convolve2d him hhk (by omega) (by omega)
  have wvk : WF (convolve2d image vertical_kernel) (M + Kh - 1) (N + Kw - 1) :=
    WF_convolve2d him hvk (by omega) (by omega)
  exact ⟨WF_zipWith2 _ whk wvk, whk, wvk⟩

theorem apply_kernel_full_mode_shape_witness :
    WF ([[1, 2], [3, 4]] : Grid ℝ) 2 2 ∧
    WF ([[1, 0], [0, -1]] : Grid ℝ) 2 2 ∧
    WF ([[0, 1], [-1, 0]] : Grid ℝ) 2 2 ∧
    WF (apply_kernel ([[1, 2], [3, 4]] : Grid ℝ)
      ([[1, 0], [0, -1]] : Grid ℝ) ([[0, 1], [-1, 0]] : Grid ℝ)).1 3 3 :=
  ⟨by decide, by decide, by decide,
    (apply_kernel_full_mode_shape _ _ _ 2 2 2 2 (by decide) (by decide) (by decide)
      (by decide) (by decide) (by decide) (by decide)).1⟩

/-- C5 counterexample: convolving the 4×4 all-ones image with the Sobel kernel
pair yields a 6×6 full-mode magnitude grid whose corner pixel is
`√((-1)² + 1²) = √2 ≠ 0` — the kernel overhangs the border there and the
partial sums do not cancel — refuting the claim that the magnitude is zero at
every pixel of the output grid. -/
theorem sobel_uniform_corner_nonzero :
    Grid.get (sobel_edge (List.replicate 4 (List.replicate 4 (1 : ℝ)))).1 0 0 ≠ 0 := by
  have hv : Grid.get (sobel_edge (List.replicate 4 (List.replicate 4 (1 : ℝ)))).1 0 0 =
      Real.sqrt 2 := by
    norm_num [sobel_edge, apply_kernel, zipWith2, convolve2d, mkGrid, Grid.get,
      sobelHorizontal, sobelVertical_eq, List.range_succ]
  rw [hv, Ne, Real.sqrt_eq_zero']
  norm_num

set_option maxHeartbeats 3200000 in
/-- C5 amended: for every uniform-constant 4×4 image, the Sobel magnitude is
zero at every pixel of the fully-overlapped central region (rows and columns
2..3 of the 6×6 full-convolution output); pixels where the kernel overhangs
the border can be nonzero. -/
theorem sobel_uniform_interior_zero (c : ℝ) :
    ∀ i j, 2 ≤ i → i ≤ 3 → 2 ≤ j → j ≤ 3 →
      Grid.get (sobel_edge (List.replicate 4 (List.replicate 4 c))).1 i j = 0 := by
  intro i j h1 h2 h3 h4
  interval_cases i <;> interval_cases j <;>
    · norm_num [sobel_edge, apply_kernel, zipWith2, convolve2d, mkGrid, Grid.get,
        sobelHorizontal, sobelVertical_eq, List.range_succ]
      ring_nf
      simp

theorem sobel_uniform_interior_zero_witness :
    (2 : ℕ) ≤ 2 ∧ (2 : ℕ) ≤ 3 ∧
    Grid.get (sobel_edge (List.replicate 4 (List.replicate 4 (1 : ℝ)))).1 2 2 = 0 :=
  ⟨by decide, by decide,
    sobel_uniform_interior_zero 1 2 2 (by decide) (by decide) (by decide) (by decide)⟩

/-- C2: `Hysteresis` is a single raster-order pass mutating the grid it
reads, so a promotion made earlier in the pass is visible to later
neighbour checks (second conjunct: a weak chain aligned with raster order
fully promotes through freshly promoted pixels), while a length-3 weak chain
oriented against raster order with its Strong seed at the highest column
index promotes only the weak pixel adjacent to the seed; the two remaining
chain pixels become Background (first conjunct). -/
theorem hysteresis_raster_order_chain :
    (Hysteresis ([[0, 0, 0, 0, 0, 0],
                  [0, 70, 70, 70, 255, 0],
                  [0, 0, 0, 0, 0, 0]] : Grid ℚ) 70 255 =
      [[0, 0, 0, 0, 0, 0],
       [0, 0, 0, 255, 255, 0],
       [0, 0, 0, 0, 0, 0]]) ∧
    (Hysteresis ([[0, 0, 0, 0, 0, 0],
                  [0, 255, 70, 70, 70, 0],
                  [0, 0, 0, 0, 0, 0]] : Grid ℚ) 70 255 =
      [[0, 0, 0, 0, 0, 0],
       [0, 255, 255, 255, 255, 0],
       [0, 0, 0, 0, 0, 0]]) := by
  decide

/-- C4 counterexample: a Weak pixel on the border is never visited by the
`Hysteresis` loop and keeps the Weak sentinel 70, which is neither
Background 0 nor Strong 255 — refuting the claim that every pixel that
started Weak ends at 0 or 255 "including border pixels". -/
theorem hysteresis_border_weak_survives :
    Grid.get (Hysteresis ([[70, 0, 0], [0, 0, 0], [0, 0, 0]] : Grid ℚ) 70 255) 0 0 = 70 ∧
    ¬ ((70 : ℚ) = 0 ∨ (70 : ℚ) = 255) := by
  decide

/-- C4 amended: after a `Hysteresis` pass, every *interior* pixel whose
input value equals the Weak sentinel has output value 0 (Background) or
`Strong`; border pixels that started Weak keep their input value instead. -/
theorem hysteresis_interior_weak_binary {α : Type} [Zero α] [DecidableEq α]
    (g : Grid α) (Weak Strong : α) (M N : ℕ) (hwf : WF g M N) {i j : ℕ}
    (h1 : 1 ≤ i) (h2 : i < M - 1) (h3 : 1 ≤ j) (h4 : j < N - 1)
    (hw : Grid.get g i j = Weak) :
    Grid.get (Hysteresis g Weak Strong) i j = 0 ∨
      Grid.get (Hysteresis g Weak Strong) i j = Strong := by
  rw [Hysteresis_eq_foldl g Weak Strong hwf]
  exact foldl_hystStep_weak_result Weak Strong (interiorIdx M N) g
    (nodup_interiorIdx M N) (fun p hp => hp) hwf (i, j)
    (mem_interiorIdx.mpr ⟨h1, h2, h3, h4⟩) hw

theorem hysteresis_interior_weak_binary_witness :
    WF ([[0, 0, 0], [0, 70, 0], [0, 0, 0]] : Grid ℚ) 3 3 ∧
    (1 : ℕ) ≤ 1 ∧ 1 < 3 - 1 ∧
    Grid.get ([[0, 0, 0], [0, 70, 0], [0, 0, 0]] : Grid ℚ) 1 1 = 70 ∧
    (Grid.get (Hysteresis ([[0, 0, 0], [0, 70, 0], [0, 0, 0]] : Grid ℚ) 70 255) 1 1 = 0 ∨
      Grid.get (Hysteresis ([[0, 0, 0], [0, 70, 0], [0, 0, 0]] : Grid ℚ) 70 255) 1 1 = 255) :=
  ⟨by decide, by decide, by decide, by decide,
    hysteresis_interior_weak_binary _ 70 255 3 3 (by decide) (by decide) (by decide)
      (by decide) (by decide) (by decide)⟩

/-- C8: on an input Classification Grid containing no Weak pixel, the
`Hysteresis` pass returns the grid unchanged. -/
theorem hysteresis_identity_no_weak {α : Type} [Zero α] [DecidableEq α]
    (g : Grid α) (Weak Strong : α) (M N : ℕ) (hwf : WF g M N)
    (h : ∀ i j, i < M → j < N → Grid.get g i j ≠ Weak) :
    Hysteresis g Weak Strong = g := by
  rw [Hysteresis_eq_foldl g Weak Strong hwf]
  apply foldl_hystStep_id
  intro p hp
  rw [mem_interiorIdx] at hp
  exact h p.1 p.2 (by omega) (by omega)

theorem hysteresis_identity_no_weak_witness :
    WF ([[0, 255, 0], [0, 0, 255], [255, 0, 0]] : Grid ℚ) 3 3 ∧
    (∀ i j, i < 3 → j < 3 →
      Grid.get ([[0, 255, 0], [0, 0, 255], [255, 0, 0]] : Grid ℚ) i j ≠ 70) ∧
    Hysteresis ([[0, 255, 0], [0, 0, 255], [255, 0, 0]] : Grid ℚ) 70 255 =
      [[0, 255, 0], [0, 0, 255], [255, 0, 0]] :=
  ⟨by decide,
    by intro i j hi hj; interval_cases i <;> interval_cases j <;> decide,
    hysteresis_identity_no_weak _ 70 255 3 3 (by decide)
      (by intro i j hi hj; interval_cases i <;> interval_cases j <;> decide)⟩

/-- C9: `Hysteresis` modifies only interior pixels whose value equals the
Weak sentinel: every border pixel, and every pixel whose value differs from
Weak, keeps exactly its input value.  (The Python function mutates and
returns the very array it was given; in this embedding that in-place
aliasing is rendered by the returned grid, and this theorem states the
corresponding frame property.) -/
theorem hysteresis_frame {α : Type} [Zero α] [DecidableEq α]
    (g : Grid α) (Weak Strong : α) (M N : ℕ) (hwf : WF g M N) (i j : ℕ)
    (h : i = 0 ∨ M - 1 ≤ i ∨ j = 0 ∨ N - 1 ≤ j ∨ Grid.get g i j ≠ Weak) :
    Grid.get (Hysteresis g Weak Strong) i j = Grid.get g i j := by
  rw [Hysteresis_eq_foldl g Weak Strong hwf]
  by_cases hw : Grid.get g i j = Weak
  · have hborder : (i, j) ∉ interiorIdx M N := by
      intro hmem
      rw [mem_interiorIdx] at hmem
      have a1 : 1 ≤ i := hmem.1
      have a2 : i < M - 1 := hmem.2.1
      have a3 : 1 ≤ j := hmem.2.2.1
      have a4 : j < N - 1 := hmem.2.2.2
      rcases h with h | h | h | h | h
      · omega
      · omega
      · omega
      · omega
      · exact h hw
    exact foldl_hystStep_not_mem Weak Strong _ g (i, j) hborder
  · exact foldl_hystStep_nonweak Weak Strong _ g (i, j) hw

theorem hysteresis_frame_witness :
    WF ([[70, 0, 0], [0, 255, 0], [0, 0, 0]] : Grid ℚ) 3 3 ∧
    ((0 : ℕ) = 0 ∨ (3 : ℕ) - 1 ≤ 0 ∨ (0 : ℕ) = 0 ∨ (3 : ℕ) - 1 ≤ 0 ∨
      Grid.get ([[70, 0, 0], [0, 255, 0], [0, 0, 0]] : Grid ℚ) 0 0 ≠ 70) ∧
    Grid.get (Hysteresis ([[70, 0, 0], [0, 255, 0], [0, 0, 0]] : Grid ℚ) 70 255) 0 0 =
      Grid.get ([[70, 0, 0], [0, 255, 0], [0, 0, 0]] : Grid ℚ) 0 0 :=
  ⟨by decide, by decide,
    hysteresis_frame _ 70 255 3 3 (by decide) 0 0 (by decide)⟩

/-- C10: for every well-formed `M × N` grid, every subscript read by the
interior loops of `NonMaximumSuppression` and `Hysteresis` (rows `1..M-2`,
columns `1..N-2`, neighbour offsets ±1) is within bounds, so the checked
loop bodies never return `none` and the `except IndexError` handler branch
of each function is unreachable. -/
theorem interior_access_safety (GradientMagnitude GradientDirection Image : Grid ℝ)
    (Strong : ℝ) (M N : ℕ) (hm : WF GradientMagnitude M N)
    (hd : WF GradientDirection M N) (hg : WF Image M N) :
    ∀ p ∈ interiorIdx M N,
      (∀ q ∈ nmsAccesses p.1 p.2 ++ hystNeighbors p.1 p.2,
        (Grid.get? Image q.1 q.2).isSome = true) ∧
      (nmsPixel? GradientMagnitude GradientDirection p.1 p.2).isSome = true ∧
      anyStrong? Image Strong (hystNeighbors p.1 p.2) ≠ none := by
  intro p hp
  refine ⟨?_, ?_, ?_⟩
  · intro q hq
    rcases List.mem_append.mp hq with h | h
    · exact (get?_isSome_iff hg q.1 q.2).mpr (nmsAccesses_inbounds hp q h)
    · exact (get?_isSome_iff hg q.1 q.2).mpr (hystNeighbors_inbounds hp q h)
  · have hpin := mem_interiorIdx.mp hp
    exact nmsPixel?_isSome hm hd hpin.1 hpin.2.1 hpin.2.2.1 hpin.2.2.2
  · exact anyStrong?_ne_none Image Strong _ fun r hr =>
      (get?_isSome_iff hg r.1 r.2).mpr (hystNeighbors_inbounds hp r hr)

theorem interior_access_safety_witness :
    WF ([[0, 0, 0], [0, 0, 0], [0, 0, 0]] : Grid ℝ) 3 3 ∧
    (∀ p ∈ interiorIdx 3 3,
      (∀ q ∈ nmsAccesses p.1 p.2 ++ hystNeighbors p.1 p.2,
        (Grid.get? ([[0, 0, 0], [0, 0, 0], [0, 0, 0]] : Grid ℝ) q.1 q.2).isSome = true) ∧
      (nmsPixel? ([[0, 0, 0], [0, 0, 0], [0, 0, 0]] : Grid ℝ)
        ([[0, 0, 0], [0, 0, 0], [0, 0, 0]] : Grid ℝ) p.1 p.2).isSome = true ∧
      anyStrong? ([[0, 0, 0], [0, 0, 0], [0, 0, 0]] : Grid ℝ) 255
        (hystNeighbors p.1 p.2) ≠ none) :=
  ⟨by decide,
    interior_access_safety _ _ _ 255 3 3 (by decide) (by decide) (by decide)⟩

/-- C7: for same-shape magnitude and direction grids (the magnitude grid
non-negative, as gradient magnitudes are by construction), the
`NonMaximumSuppression` output has the magnitude's `M × N` shape, each output
pixel is either the unchanged input magnitude or 0 (hence pointwise at most the
input), and every pixel of the outermost border rows and columns is exactly 0. -/
theorem nms_le_input_and_border_zero (GradientMagnitude GradientDirection : Grid ℝ)
    (M N : ℕ) (hm : WF GradientMagnitude M N) (hd : WF GradientDirection M N)
    (hpos : ∀ i j, i < M → j < N → 0 ≤ Grid.get GradientMagnitude i j) :
    WF (NonMaximumSuppression GradientMagnitude GradientDirection) M N ∧
    ∀ i j, i < M → j < N →
      (Grid.get (NonMaximumSuppression GradientMagnitude GradientDirection) i j =
          Grid.get GradientMagnitude i j ∨
        Grid.get (NonMaximumSuppression GradientMagnitude GradientDirection) i j = 0) ∧
      Grid.get (NonMaximumSuppression GradientMagnitude GradientDirection) i j ≤
        Grid.get GradientMagnitude i j ∧
      ((i = 0 ∨ i = M - 1 ∨ j = 0 ∨ j = N - 1) →
        Grid.get (NonMaximumSuppression GradientMagnitude GradientDirection) i j = 0) := by
  refine ⟨WF_nms GradientDirection hm, ?_⟩
  intro i j hi hj
  have hM : 0 < M := by omega
  have hget : Grid.get (NonMaximumSuppression GradientMagnitude GradientDirection) i j =
      if 1 ≤ i ∧ i < M - 1 ∧ 1 ≤ j ∧ j < N - 1 then
        (nmsPixel? GradientMagnitude GradientDirection i j).getD 0
      else 0 := by
    rw [nms_eq_mkGrid, hm.1, WF_row_len hm hM]
    exact get_mkGrid M N _ hi hj
  have hcases : Grid.get (NonMaximumSuppression GradientMagnitude GradientDirection) i j =
      Grid.get GradientMagnitude i j ∨
      Grid.get (NonMaximumSuppression GradientMagnitude GradientDirection) i j = 0 := by
    rw [hget]
    by_cases hc : 1 ≤ i ∧ i < M - 1 ∧ 1 ≤ j ∧ j < N - 1
    · rw [if_pos hc]
      rcases nmsPixel?_getD_cases GradientMagnitude GradientDirection i j with h | h
      · right; exact h
      · left; exact h
    · right; rw [if_neg hc]
  refine ⟨hcases, ?_, ?_⟩
  · rcases hcases with h | h
    · rw [h]
    · rw [h]; exact hpos i j hi hj
  · intro hb
    rw [hget, if_neg]
    intro hc
    omega

theorem zipWith2_row {α β γ : Type} (f : α → β → γ) (a : Grid α) (b : Grid β)
    {i : ℕ} (hia : i < a.length) (hib : i < b.length) :
    (zipWith2 f a b).getD i [] = List.zipWith f (a.getD i []) (b.getD i []) := by
  have hiz : i < (zipWith2 f a b).length := by
    rw [zipWith2, List.length_zipWith]; omega
  rw [getD_eq_getElem_of_lt _ _ hiz]
  simp only [zipWith2] at hiz ⊢
  rw [List.getElem_zipWith]
  rw [getD_eq_getElem_of_lt _ _ hia, getD_eq_getElem_of_lt _ _ hib]

theorem allZero_zipWith2 {α β γ : Type} [Zero α] [Zero β] [Zero γ]
    {f : α → β → γ} {a : Grid α} {b : Grid β}
    (ha : allZero a) (hb : allZero b) (hf : f 0 0 = 0) :
    allZero (zipWith2 f a b) := by
  apply allZero_of_inbounds
  intro i j hi hj
  have hia : i < a.length := by
    rw [zipWith2, List.length_zipWith] at hi; omega
  have hib : i < b.length := by
    rw [zipWith2, List.length_zipWith] at hi; omega
  rw [zipWith2_row f a b hia hib, List.length_zipWith] at hj
  rw [get_zipWith2 f a b hia hib (by omega) (by omega), ha, hb, hf]

theorem WF_map_grid {α β : Type} {g : Grid α} {M N : ℕ} (h : α → β)
    (hwf : WF g M N) : WF (g.map (List.map h)) M N := by
  constructor
  · rw [List.length_map]; exact hwf.1
  · intro r hr
    rw [List.mem_map] at hr
    obtain ⟨r0, hr0, hr⟩ := hr
    rw [← hr, List.length_map]
    exact hwf.2 r0 hr0

theorem allZero_map_grid {α β : Type} [Zero α] [Zero β] {g : Grid α}
    {h : α → β} (hz : allZero g) (hh : h 0 = 0) :
    allZero (g.map (List.map h)) := by
  apply allZero_of_inbounds
  intro i j hi hj
  rw [List.length_map] at hi
  rw [map_grid_row g h hi, List.length_map] at hj
  rw [get_map_grid g h hi hj, hz, hh]

theorem WF_replicate {α : Type} (M N : ℕ) (c : α) :
    WF (List.replicate M (List.replicate N c)) M N := by
  constructor
  · exact List.length_replicate M _
  · intro r hr
    rw [List.eq_of_mem_replicate hr]
    exact List.length_replicate N c

theorem allZero_replicate {α : Type} [Zero α] (M N : ℕ) :
    allZero (List.replicate M (List.replicate N (0 : α))) := by
  apply allZero_of_inbounds
  intro i j hi hj
  rw [List.length_replicate] at hi
  have hrow : (List.replicate M (List.replicate N (0 : α))).getD i [] =
      List.replicate N (0 : α) := by
    rw [getD_eq_getElem_of_lt _ _ (by simpa using hi)]
    exact List.getElem_replicate _ _
  rw [hrow, List.length_replicate] at hj
  unfold Grid.get
  rw [hrow, getD_eq_getElem_of_lt _ _ (by simpa using hj)]
  exact List.getElem_replicate _ _

theorem GaussianFilter_eq_mkGrid (img : Grid ℝ) (a b : ℕ) :
    GaussianFilter img a b =
      mkGrid img.length ((img.getD 0 []).length) (fun i j =>
        (((List.range 3).map fun di =>
          (((List.range 3).map fun dj =>
            Grid.get ([[1, 2, 1], [2, 4, 2], [1, 2, 1]] : Grid ℝ) di dj *
              (if 1 ≤ i + di ∧ 1 ≤ j + dj then Grid.get img (i + di - 1) (j + dj - 1)
               else 0)).sum)).sum) / 16) := rfl

theorem WF_GaussianFilter {img : Grid ℝ} {M N : ℕ} (a b : ℕ)
    (hwf : WF img M N) (hM : 0 < M) : WF (GaussianFilter img a b) M N := by
  rw [GaussianFilter_eq_mkGrid, hwf.1, WF_row_len hwf hM]
  exact WF_mkGrid _ _ _

theorem allZero_GaussianFilter {img : Grid ℝ} (a b : ℕ) (hz : allZero img) :
    allZero (GaussianFilter img a b) := by
  apply allZero_of_inbounds
  intro i j hi hj
  rw [GaussianFilter_eq_mkGrid] at hi hj ⊢
  have hwfm := WF_mkGrid img.length ((img.getD 0 []).length)
    (fun i j =>
      (((List.range 3).map fun di =>
        (((List.range 3).map fun dj =>
          Grid.get ([[1, 2, 1], [2, 4, 2], [1, 2, 1]] : Grid ℝ) di dj *
            (if 1 ≤ i + di ∧ 1 ≤ j + dj then Grid.get img (i + di - 1) (j + dj - 1)
             else 0)).sum)).sum) / 16)
  rw [hwfm.1] at hi
  rw [WF_row_len hwfm hi] at hj
  rw [get_mkGrid _ _ _ hi hj]
  have hsum : (((List.range 3).map fun di =>
      (((List.range 3).map fun dj =>
        Grid.get ([[1, 2, 1], [2, 4, 2], [1, 2, 1]] : Grid ℝ) di dj *
          (if 1 ≤ i + di ∧ 1 ≤ j + dj then Grid.get img (i + di - 1) (j + dj - 1)
           else 0)).sum)).sum) = 0 := by
    apply List.sum_eq_zero
    intro x hx
    rw [List.mem_map] at hx
    obtain ⟨di, _, hx⟩ := hx
    rw [← hx]
    apply List.sum_eq_zero
    intro y hy
    rw [List.mem_map] at hy
    obtain ⟨dj, _, hy⟩ := hy
    rw [← hy]
    by_cases hc : 1 ≤ i + di ∧ 1 ≤ j + dj
    · rw [if_pos hc, hz (i + di - 1) (j + dj - 1), mul_zero]
    · rw [if_neg hc, mul_zero]
  rw [hsum, zero_div]

theorem sobel_mag_eq (image : Grid ℝ) :
    (sobel_edge image).1 =
      zipWith2 (fun h v => Real.sqrt (h ^ 2 + v ^ 2))
        (convolve2d image sobelHorizontal) (convolve2d image sobelVertical) := rfl

theorem WF_sobelHorizontal : WF sobelHorizontal 3 3 := by decide

theorem WF_sobelVertical : WF sobelVertical 3 3 := by
  rw [sobelVertical_eq]; decide

theorem WF_sobel_mag {image : Grid ℝ} {M N : ℕ} (hwf : WF image M N)
    (hM : 0 < M) : WF (sobel_edge image).1 (M + 2) (N + 2) := by
  rw [sobel_mag_eq]
  have h1 : WF (convolve2d image sobelHorizontal) (M + 3 - 1) (N + 3 - 1) :=
    WF_convolve2d hwf WF_sobelHorizontal hM (by omega)
  have h2 : WF (convolve2d image sobelVertical) (M + 3 - 1) (N + 3 - 1) :=
    WF_convolve2d hwf WF_sobelVertical hM (by omega)
  have he : M + 3 - 1 = M + 2 := by omega
  have he2 : N + 3 - 1 = N + 2 := by omega
  rw [he, he2] at h1 h2
  exact WF_zipWith2 _ h1 h2

theorem allZero_sobel_mag {image : Grid ℝ} (hz : allZero image) :
    allZero (sobel_edge image).1 := by
  rw [sobel_mag_eq]
  exact allZero_zipWith2 (allZero_convolve2d sobelHorizontal hz)
    (allZero_convolve2d sobelVertical hz) (by simp)

theorem nms_allZero {mag dir : Grid ℝ} (hz : allZero mag) :
    allZero (NonMaximumSuppression mag dir) := by
  apply allZero_of_inbounds
  intro i j hi hj
  rw [nms_eq_mkGrid] at hi hj ⊢
  have hwfm := WF_mkGrid mag.length ((mag.getD 0 []).length)
    (fun row col =>
      if 1 ≤ row ∧ row < mag.length - 1 ∧
          1 ≤ col ∧ col < (mag.getD 0 []).length - 1 then
        (nmsPixel? mag dir row col).getD 0
      else 0)
  rw [hwfm.1] at hi
  rw [WF_row_len hwfm hi] at hj
  rw [get_mkGrid _ _ _ hi hj]
  by_cases hc : 1 ≤ i ∧ i < mag.length - 1 ∧ 1 ≤ j ∧ j < (mag.getD 0 []).length - 1
  · rw [if_pos hc]
    rcases nmsPixel?_getD_cases mag dir i j with h | h
    · exact h
    · rw [h]; exact hz i j
  · rw [if_neg hc]

theorem WF_doubleThreshold {α : Type} [LinearOrderedField α]
    {Image : Grid α} {M N : ℕ} (low high Weak : α) (hwf : WF Image M N) :
    WF (DoubleThreshold Image low high Weak) M N := by
  have hstep : DoubleThreshold Image low high Weak =
      zipWith2 (fun v t => if v ≤ gridMax Image * high ∧ gridMax Image * low ≤ v
          then Weak else t)
        Image (Image.map (List.map fun v =>
          if gridMax Image * high ≤ v then (255 : α) else 0)) := rfl
  rw [hstep]
  exact WF_zipWith2 _ hwf (WF_map_grid _ hwf)

theorem doubleThreshold_allZero_weak {α : Type} [LinearOrderedField α]
    {Image : Grid α} {M N : ℕ} (low high Weak : α) (hwf : WF Image M N)
    (hM : 0 < M) (hN : 0 < N) (hz : allZero Image) :
    ∀ i j, i < M → j < N →
      Grid.get (DoubleThreshold Image low high Weak) i j = Weak := by
  intro i j hi hj
  have hmax : gridMax Image = 0 := gridMax_allZero hwf hM hN hz
  rw [doubleThreshold_get Image low high Weak (by rw [hwf.1]; exact hi)
    (by rw [WF_row_len hwf hi]; exact hj)]
  rw [hz i j, hmax, zero_mul, zero_mul, if_pos ⟨le_refl 0, le_refl 0⟩]

/-- C3 counterexample: for the all-zero 5×5 input, every stage magnitude is
zero, so both thresholds are `0` and `DoubleThreshold` classifies every pixel
of the 7×7 grid as Weak (70); `Hysteresis` never visits border pixels, so the
corner of the final Classification Grid is the Weak sentinel 70, not
Background 0 — refuting the claim that the final grid is all Background. -/
theorem canny_allzero_corner_weak :
    Grid.get (canny_edge (List.replicate 5 (List.replicate 5 (0 : ℝ)))) 0 0 = 70 ∧
    (70 : ℝ) ≠ 0 := by
  refine ⟨?_, by norm_num⟩
  have hFWF : WF (GaussianFilter (List.replicate 5 (List.replicate 5 (0 : ℝ))) 3 9) 5 5 :=
    WF_GaussianFilter 3 9 (WF_replicate 5 5 0) (by norm_num)
  have hF0 : allZero (GaussianFilter (List.replicate 5 (List.replicate 5 (0 : ℝ))) 3 9) :=
    allZero_GaussianFilter 3 9 (allZero_replicate 5 5)
  have hMagWF : WF (sobel_edge
      (GaussianFilter (List.replicate 5 (List.replicate 5 (0 : ℝ))) 3 9)).1 7 7 :=
    WF_sobel_mag hFWF (by norm_num)
  have hMag0 : allZero (sobel_edge
      (GaussianFilter (List.replicate 5 (List.replicate 5 (0 : ℝ))) 3 9)).1 :=
    allZero_sobel_mag hF0
  have hRWF : WF ((sobel_edge
      (GaussianFilter (List.replicate 5 (List.replicate 5 (0 : ℝ))) 3 9)).1.map
        (List.map fun v => v * (255 / gridMax (sobel_edge
          (GaussianFilter (List.replicate 5 (List.replicate 5 (0 : ℝ))) 3 9)).1))) 7 7 :=
    WF_map_grid _ hMagWF
  have hR0 : allZero ((sobel_edge
      (GaussianFilter (List.replicate 5 (List.replicate 5 (0 : ℝ))) 3 9)).1.map
        (List.map fun v => v * (255 / gridMax (sobel_edge
          (GaussianFilter (List.replicate 5 (List.replicate 5 (0 : ℝ))) 3 9)).1))) :=
    allZero_map_grid hMag0 (by rw [zero_mul])
  have hSWF : WF (NonMaximumSuppression
      ((sobel_edge (GaussianFilter (List.replicate 5 (List.replicate 5 (0 : ℝ))) 3 9)).1.map
        (List.map fun v => v * (255 / gridMax (sobel_edge
          (GaussianFilter (List.replicate 5 (List.replicate 5 (0 : ℝ))) 3 9)).1)))
      ((sobel_edge (GaussianFilter (List.replicate 5 (List.replicate 5 (0 : ℝ))) 3 9)).2)) 7 7 :=
    WF_nms _ hRWF
  have hS0 : allZero (NonMaximumSuppression
      ((sobel_edge (GaussianFilter (List.replicate 5 (List.replicate 5 (0 : ℝ))) 3 9)).1.map
        (List.map fun v => v * (255 / gridMax (sobel_edge
          (GaussianFilter (List.replicate 5 (List.replicate 5 (0 : ℝ))) 3 9)).1)))
      ((sobel_edge (GaussianFilter (List.replicate 5 (List.replicate 5 (0 : ℝ))) 3 9)).2)) :=
    nms_allZero hR0
  have hTWF := WF_doubleThreshold (5 / 100) (9 / 100) (70 : ℝ) hSWF
  have hT70 := doubleThreshold_allZero_weak (5 / 100) (9 / 100) (70 : ℝ) hSWF
    (by norm_num) (by norm_num) hS0
  have hcanny : canny_edge (List.replicate 5 (List.replicate 5 (0 : ℝ))) =
      Hysteresis (DoubleThreshold (NonMaximumSuppression
        ((sobel_edge (GaussianFilter (List.replicate 5 (List.replicate 5 (0 : ℝ))) 3 9)).1.map
          (List.map fun v => v * (255 / gridMax (sobel_edge
            (GaussianFilter (List.replicate 5 (List.replicate 5 (0 : ℝ))) 3 9)).1)))
        ((sobel_edge (GaussianFilter (List.replicate 5 (List.replicate 5 (0 : ℝ))) 3 9)).2))
        (5 / 100) (9 / 100) 70) 70 255 := rfl
  rw [hcanny, Hysteresis_eq_foldl _ 70 255 hTWF,
    foldl_hystStep_not_mem 70 255 _ _ (0, 0) (by decide)]
  exact hT70 0 0 (by norm_num) (by norm_num)

/-- C3 amended: for every all-zero `M × N` input (`M, N ≥ 1`), the final
Classification Grid of the Canny pipeline is `(M+2) × (N+2)` with every
*interior* pixel Background 0, but every pixel of the outermost border rows
and columns holds the Weak sentinel 70: the all-zero magnitude makes both
thresholds 0, `DoubleThreshold` classifies every pixel Weak, and `Hysteresis`
resolves interior Weak pixels to Background while never visiting the border. -/
theorem canny_allzero_border_weak_interior_background (M N : ℕ)
    (hM : 1 ≤ M) (hN : 1 ≤ N) :
    ∀ i j, i < M + 2 → j < N + 2 →
      Grid.get (canny_edge (List.replicate M (List.replicate N (0 : ℝ)))) i j =
        if i = 0 ∨ i = M + 1 ∨ j = 0 ∨ j = N + 1 then 70 else 0 := by
  intro i j hi hj
  have hFWF : WF (GaussianFilter (List.replicate M (List.replicate N (0 : ℝ))) 3 9) M N :=
    WF_GaussianFilter 3 9 (WF_replicate M N 0) (by omega)
  have hF0 : allZero (GaussianFilter (List.replicate M (List.replicate N (0 : ℝ))) 3 9) :=
    allZero_GaussianFilter 3 9 (allZero_replicate M N)
  have hMagWF : WF (sobel_edge
      (GaussianFilter (List.replicate M (List.replicate N (0 : ℝ))) 3 9)).1 (M + 2) (N + 2) :=
    WF_sobel_mag hFWF (by omega)
  have hMag0 : allZero (sobel_edge
      (GaussianFilter (List.replicate M (List.replicate N (0 : ℝ))) 3 9)).1 :=
    allZero_sobel_mag hF0
  have hRWF : WF ((sobel_edge
      (GaussianFilter (List.replicate M (List.replicate N (0 : ℝ))) 3 9)).1.map
        (List.map fun v => v * (255 / gridMax (sobel_edge
          (GaussianFilter (List.replicate M (List.replicate N (0 : ℝ))) 3 9)).1)))
      (M + 2) (N + 2) :=
    WF_map_grid _ hMagWF
  have hR0 : allZero ((sobel_edge
      (GaussianFilter (List.replicate M (List.replicate N (0 : ℝ))) 3 9)).1.map
        (List.map fun v => v * (255 / gridMax (sobel_edge
          (GaussianFilter (List.replicate M (List.replicate N (0 : ℝ))) 3 9)).1))) :=
    allZero_map_grid hMag0 (by rw [zero_mul])
  have hSWF : WF (NonMaximumSuppression
      ((sobel_edge (GaussianFilter (List.replicate M (List.replicate N (0 : ℝ))) 3 9)).1.map
        (List.map fun v => v * (255 / gridMax (sobel_edge
          (GaussianFilter (List.replicate M (List.replicate N (0 : ℝ))) 3 9)).1)))
      ((sobel_edge (GaussianFilter (List.replicate M (List.replicate N (0 : ℝ))) 3 9)).2))
      (M + 2) (N + 2) :=
    WF_nms _ hRWF
  have hS0 : allZero (NonMaximumSuppression
      ((sobel_edge (GaussianFilter (List.replicate M (List.replicate N (0 : ℝ))) 3 9)).1.map
        (List.map fun v => v * (255 / gridMax (sobel_edge
          (GaussianFilter (List.replicate M (List.replicate N (0 : ℝ))) 3 9)).1)))
      ((sobel_edge (GaussianFilter (List.replicate M (List.replicate N (0 : ℝ))) 3 9)).2)) :=
    nms_allZero hR0
  have hTWF := WF_doubleThreshold (5 / 100) (9 / 100) (70 : ℝ) hSWF
  have hT70 := doubleThreshold_allZero_weak (5 / 100) (9 / 100) (70 : ℝ) hSWF
    (by omega) (by omega) hS0
  have hcanny : canny_edge (List.replicate M (List.replicate N (0 : ℝ))) =
      Hysteresis (DoubleThreshold (NonMaximumSuppression
        ((sobel_edge (GaussianFilter (List.replicate M (List.replicate N (0 : ℝ))) 3 9)).1.map
          (List.map fun v => v * (255 / gridMax (sobel_edge
            (GaussianFilter (List.replicate M (List.replicate N (0 : ℝ))) 3 9)).1)))
        ((sobel_edge (GaussianFilter (List.replicate M (List.replicate N (0 : ℝ))) 3 9)).2))
        (5 / 100) (9 / 100) 70) 70 255 := rfl
  rw [hcanny, Hysteresis_eq_foldl _ 70 255 hTWF]
  by_cases hb : i = 0 ∨ i = M + 1 ∨ j = 0 ∨ j = N + 1
  · rw [if_pos hb]
    have hnotmem : (i, j) ∉ interiorIdx (M + 2) (N + 2) := by
      intro hmem
      rw [mem_interiorIdx] at hmem
      have a1 : 1 ≤ i := hmem.1
      have a2 : i < M + 2 - 1 := hmem.2.1
      have a3 : 1 ≤ j := hmem.2.2.1
      have a4 : j < N + 2 - 1 := hmem.2.2.2
      omega
    rw [foldl_hystStep_not_mem 70 255 _ _ (i, j) hnotmem]
    exact hT70 i j hi hj
  · rw [if_neg hb]
    have hns : ∀ a b, Grid.get (DoubleThreshold (NonMaximumSuppression
        ((sobel_edge (GaussianFilter (List.replicate M (List.replicate N (0 : ℝ))) 3 9)).1.map
          (List.map fun v => v * (255 / gridMax (sobel_edge
            (GaussianFilter (List.replicate M (List.replicate N (0 : ℝ))) 3 9)).1)))
        ((sobel_edge (GaussianFilter (List.replicate M (List.replicate N (0 : ℝ))) 3 9)).2))
        (5 / 100) (9 / 100) 70) a b ≠ (255 : ℝ) := by
      intro a b
      by_cases ha : a < M + 2
      · by_cases hbb : b < N + 2
        · rw [hT70 a b ha hbb]; norm_num
        · rw [get_oob_col _ (by rw [WF_row_len hTWF ha]; omega)]; norm_num
      · rw [get_oob_row _ b (by rw [hTWF.1]; omega)]; norm_num
    exact foldl_hystStep_weak_noStrong 70 255 (interiorIdx (M + 2) (N + 2)) _
      (nodup_interiorIdx _ _) (fun p hp => hp) hTWF hns (i, j)
      (mem_interiorIdx.mpr ⟨by omega, by omega, by omega, by omega⟩)
      (hT70 i j hi hj)

theorem canny_allzero_border_weak_interior_background_witness :
    (1 : ℕ) ≤ 5 ∧ (0 : ℕ) < 5 + 2 ∧ (1 : ℕ) < 5 + 2 ∧
    Grid.get (canny_edge (List.replicate 5 (List.replicate 5 (0 : ℝ)))) 1 1 =
      if (1 : ℕ) = 0 ∨ (1 : ℕ) = 5 + 1 ∨ (1 : ℕ) = 0 ∨ (1 : ℕ) = 5 + 1 then 70 else 0 :=
  ⟨by decide, by decide, by decide,
    canny_allzero_border_weak_interior_background 5 5 (by decide) (by decide) 1 1
      (by decide) (by decide)⟩

theorem nms_le_input_and_border_zero_witness :
    WF ([[0, 0, 0], [0, 0, 0], [0, 0, 0]] : Grid ℝ) 3 3 ∧
    (∀ i j, i < 3 → j < 3 →
      0 ≤ Grid.get ([[0, 0, 0], [0, 0, 0], [0, 0, 0]] : Grid ℝ) i j) ∧
    WF (NonMaximumSuppression ([[0, 0, 0], [0, 0, 0], [0, 0, 0]] : Grid ℝ)
      ([[0, 0, 0], [0, 0, 0], [0, 0, 0]] : Grid ℝ)) 3 3 :=
  ⟨by decide,
    fun i j hi hj => by
      have hz : Grid.get ([[0, 0, 0], [0, 0, 0], [0, 0, 0]] : Grid ℝ) i j = 0 := by
        interval_cases i <;> interval_cases j <;> rfl
      rw [hz],
    (nms_le_input_and_border_zero _ _ 3 3 (by decide) (by decide)
      (fun i j hi hj => by
        have hz : Grid.get ([[0, 0, 0], [0, 0, 0], [0, 0, 0]] : Grid ℝ) i j = 0 := by
          interval_cases i <;> interval_cases j <;> rfl
        rw [hz])).1⟩

end EdgeDetection
